import Mathlib

/-!
Verification of the incremental Chroma indexing pipeline and the Lambda
query API of the llm-sre-site repository.

The Python sources are shallowly embedded below:
  * scripts/build_chroma.py   — chunk_text, compute_diff, chroma_delete_pdf,
                                chroma_index_pdf, the dry-run path of main
  * scripts/rag_ingest_to_chroma.py — embed_with_retry and its batch loop
  * lambda/app.py             — _safe_name, the /doc route, the
                                /runbooks/ask route, _answer's text extraction

Python strings are modelled as List Char, dicts as association lists,
machine integers as Int/Nat, network calls as explicit oracle parameters,
and exceptions as Except values.
-/

namespace LlmSre

/-- Python str.strip(): drop leading and trailing whitespace characters. -/
def pyStrip (l : List Char) : List Char :=
  ((l.dropWhile Char.isWhitespace).reverse.dropWhile Char.isWhitespace).reverse

/-- Normalization of a python slice stop index against a list of length n:
a negative index counts from the end (clamped at 0), a non-negative one is
clamped at n. -/
def pySliceStop (n : Nat) (stop : Int) : Nat :=
  if stop < 0 then ((n : Int) + stop).toNat else min stop.toNat n

/-- Python t[start:stop] for a non-negative start index. -/
def pySlice (t : List Char) (start : Nat) (stop : Int) : List Char :=
  let a := min start t.length
  let b := pySliceStop t.length stop
  (t.drop a).take (b - a)

/-- The loop step of chunk_text in scripts/build_chroma.py:
step = max(1, chunk_size - overlap). -/
def chunkStep (chunk_size overlap : Int) : Nat :=
  (max 1 (chunk_size - overlap)).toNat

/-- The while-loop of chunk_text in scripts/build_chroma.py: while i < len(text),
append text[i : i + chunk_size] and advance i by step.  The loop is modelled
with an explicit iteration budget (fuel); chunk_text supplies fuel = |text|,
which theorem chunk_text_terminates below proves is always sufficient because
the window start advances by at least 1 per iteration. -/
def chunkTextGo (t : List Char) (chunk_size overlap : Int) : Nat → Nat → List (List Char)
  | 0, _ => []
  | fuel + 1, i =>
    if i < t.length then
      pySlice t i ((i : Int) + chunk_size) :: chunkTextGo t chunk_size overlap fuel (i + chunkStep chunk_size overlap)
    else []

/-- chunk_text from scripts/build_chroma.py: strip the text, return [] when
empty, otherwise slide a window of length chunk_size advancing by
max(1, chunk_size - overlap). -/
def chunk_text (text : List Char) (chunk_size overlap : Int) : List (List Char) :=
  let t := pyStrip text
  if t = [] then [] else chunkTextGo t chunk_size overlap t.length 0

theorem chunkStep_pos (chunk_size overlap : Int) : 1 ≤ chunkStep chunk_size overlap := by
  have h : (1 : Int) ≤ max 1 (chunk_size - overlap) := le_max_left _ _
  have h2 := Int.toNat_le_toNat h
  simp only [Int.toNat_one] at h2
  exact h2

theorem chunkStep_eq (chunk_size overlap : Int) (h0 : 0 ≤ overlap) (h1 : overlap < chunk_size) :
    chunkStep chunk_size overlap = chunk_size.toNat - overlap.toNat := by
  have hmax : max 1 (chunk_size - overlap) = chunk_size - overlap := by
    omega
  simp only [chunkStep, hmax]
  omega

theorem pySlice_eq (t : List Char) (i : Nat) (chunk_size : Int)
    (h0 : 0 ≤ chunk_size) (hi : i ≤ t.length) :
    pySlice t i ((i : Int) + chunk_size) = (t.drop i).take chunk_size.toNat := by
  have hnn : ¬ ((i : Int) + chunk_size < 0) := by omega
  have htn : ((i : Int) + chunk_size).toNat = i + chunk_size.toNat := by omega
  have ha : min i t.length = i := Nat.min_eq_left hi
  simp only [pySlice, pySliceStop, hnn, if_false, htn, ha]
  have hb : min (i + chunk_size.toNat) t.length - i = min chunk_size.toNat (t.length - i) := by
    omega
  rw [hb]
  have hlen : (t.drop i).length = t.length - i := List.length_drop i t
  calc (t.drop i).take (min chunk_size.toNat (t.length - i))
      = ((t.drop i).take (t.length - i)).take chunk_size.toNat := by
        rw [List.take_take, Nat.min_comm]
    _ = (t.drop i).take chunk_size.toNat := by
        rw [← hlen, List.take_length]

theorem chunkTextGo_get? (t : List Char) (chunk_size overlap : Int) :
    ∀ (j fuel i : Nat), t.length - i ≤ fuel →
      (chunkTextGo t chunk_size overlap fuel i).get? j =
        if i + j * chunkStep chunk_size overlap < t.length then
          some (pySlice t (i + j * chunkStep chunk_size overlap)
            (((i + j * chunkStep chunk_size overlap : Nat) : Int) + chunk_size))
        else none := by
  intro j
  induction j with
  | zero =>
    intro fuel i hfuel
    cases fuel with
    | zero =>
      have hle : t.length ≤ i := by omega
      simp [chunkTextGo, Nat.not_lt.mpr hle]
    | succ fuel =>
      by_cases hi : i < t.length
      · simp [chunkTextGo, hi]
      · have hlt : ¬ i + 0 * chunkStep chunk_size overlap < t.length := by omega
        simp [chunkTextGo, hi, hlt]
  | succ j ih =>
    intro fuel i hfuel
    have hstep := chunkStep_pos chunk_size overlap
    cases fuel with
    | zero =>
      have hle : t.length ≤ i := by omega
      have hlt : ¬ i + (j + 1) * chunkStep chunk_size overlap < t.length := by
        have : i ≤ i + (j + 1) * chunkStep chunk_size overlap := Nat.le_add_right _ _
        omega
      simp [chunkTextGo, hlt]
    | succ fuel =>
      by_cases hi : i < t.length
      · have hrec : t.length - (i + chunkStep chunk_size overlap) ≤ fuel := by omega
        have harith : i + chunkStep chunk_size overlap + j * chunkStep chunk_size overlap
            = i + (j + 1) * chunkStep chunk_size overlap := by ring
        have := ih fuel (i + chunkStep chunk_size overlap) hrec
        rw [harith] at this
        simp only [chunkTextGo, hi, if_true, List.get?_cons_succ]
        exact this
      · have hlt : ¬ i + (j + 1) * chunkStep chunk_size overlap < t.length := by
          have : i ≤ i + (j + 1) * chunkStep chunk_size overlap := Nat.le_add_right _ _
          omega
        simp [chunkTextGo, hi, hlt]

theorem chunkTextGo_congr (t : List Char) (chunk_size overlap : Int) :
    ∀ (f1 f2 i : Nat), t.length - i ≤ f1 → t.length - i ≤ f2 →
      chunkTextGo t chunk_size overlap f1 i = chunkTextGo t chunk_size overlap f2 i := by
  intro f1
  induction f1 with
  | zero =>
    intro f2 i h1 h2
    have hi : ¬ i < t.length := by omega
    cases f2 with
    | zero => rfl
    | succ f2 => simp [chunkTextGo, hi]
  | succ f1 ih =>
    intro f2 i h1 h2
    have hstep := chunkStep_pos chunk_size overlap
    cases f2 with
    | zero =>
      have hi : ¬ i < t.length := by omega
      simp [chunkTextGo, hi]
    | succ f2 =>
      by_cases hi : i < t.length
      · simp only [chunkTextGo, hi, if_true]
        have hrec1 : t.length - (i + chunkStep chunk_size overlap) ≤ f1 := by omega
        have hrec2 : t.length - (i + chunkStep chunk_size overlap) ≤ f2 := by omega
        rw [ih f2 (i + chunkStep chunk_size overlap) hrec1 hrec2]
      · simp [chunkTextGo, hi]

/-- C8: for parameters with 0 ≤ overlap < chunk_size, whenever chunk i of a
document has full length chunk_size, its trailing `overlap` characters equal
the leading `overlap` characters of chunk i+1, because the window start
advances by chunk_size - overlap each step. -/
theorem chunk_overlap_invariant (text : List Char) (chunk_size overlap : Int) (i : Nat)
    (a b : List Char)
    (hov : 0 ≤ overlap) (hlt : overlap < chunk_size)
    (ha : (chunk_text text chunk_size overlap).get? i = some a)
    (hb : (chunk_text text chunk_size overlap).get? (i + 1) = some b)
    (hfull : a.length = chunk_size.toNat) :
    a.drop (a.length - overlap.toNat) = b.take overlap.toNat := by
  set t := pyStrip text with ht
  by_cases hempty : t = []
  · rw [chunk_text] at ha
    simp only [← ht, hempty, if_true] at ha
    cases ha
  · have hcs : 0 ≤ chunk_size := by omega
    have hstep : chunkStep chunk_size overlap = chunk_size.toNat - overlap.toNat :=
      chunkStep_eq chunk_size overlap hov hlt
    have hOS : overlap.toNat < chunk_size.toNat := by omega
    rw [chunk_text] at ha hb
    simp only [← ht, hempty, if_false] at ha hb
    rw [chunkTextGo_get? t chunk_size overlap i t.length 0 (by omega)] at ha
    rw [chunkTextGo_get? t chunk_size overlap (i + 1) t.length 0 (by omega)] at hb
    set p := 0 + i * chunkStep chunk_size overlap with hp
    set q := 0 + (i + 1) * chunkStep chunk_size overlap with hq
    by_cases hpl : p < t.length
    · by_cases hql : q < t.length
      · simp only [hpl, hql, if_true, Option.some_inj] at ha hb
        have hA : a = (t.drop p).take chunk_size.toNat := by
          rw [← ha, pySlice_eq t p chunk_size hcs (by omega)]
        have hB : b = (t.drop q).take chunk_size.toNat := by
          rw [← hb, pySlice_eq t q chunk_size hcs (by omega)]
        have hlenA : a.length = min chunk_size.toNat (t.length - p) := by
          rw [hA, List.length_take, List.length_drop]
        have hfit : chunk_size.toNat ≤ t.length - p := by omega
        have hqp : q = p + (chunk_size.toNat - overlap.toNat) := by
          rw [hp, hq]
          rw [hstep]
          ring
        rw [hfull, hA, hB]
        rw [List.drop_take]
        have h1 : chunk_size.toNat - (chunk_size.toNat - overlap.toNat) = overlap.toNat := by
          omega
        rw [List.drop_drop, h1]
        rw [List.take_take, Nat.min_eq_left (by omega : overlap.toNat ≤ chunk_size.toNat)]
        rw [hqp]
      · simp only [hql, if_false] at hb
        cases hb
    · simp only [hpl, if_false] at ha
      cases ha

/-- C9: the chunking loop terminates on every input for every parameter pair,
including overlap ≥ chunk_size and chunk_size ≤ 0, because the window start
advances by step = max(1, chunk_size - overlap) ≥ 1 per iteration: a budget of
|text| iterations always suffices to reproduce chunk_text. -/
theorem chunk_text_terminates (text : List Char) (chunk_size overlap : Int) (fuel : Nat) :
    1 ≤ chunkStep chunk_size overlap ∧
      ((pyStrip text).length ≤ fuel →
        chunkTextGo (pyStrip text) chunk_size overlap fuel 0 = chunk_text text chunk_size overlap) := by
  refine ⟨chunkStep_pos chunk_size overlap, fun hfuel => ?_⟩
  rw [chunk_text]
  by_cases hempty : pyStrip text = []
  · simp only [hempty, if_true]
    cases fuel with
    | zero => rfl
    | succ fuel => simp [chunkTextGo]
  · simp only [hempty, if_false]
    exact chunkTextGo_congr (pyStrip text) chunk_size overlap fuel (pyStrip text).length 0
      (by omega) (by omega)

/-- Witness for C8 at text "abcdefgh", chunk_size 4, overlap 2: the first
chunk "abcd" and second chunk "cdef" share the 2-character overlap "cd". -/
theorem chunk_overlap_invariant_witness :
    ("abcd".toList).drop (("abcd".toList).length - (2 : Int).toNat) = ("cdef".toList).take (2 : Int).toNat :=
  chunk_overlap_invariant "abcdefgh".toList 4 2 0 "abcd".toList "cdef".toList
    (by decide) (by decide) (by decide) (by decide) (by decide)

/-- Witness for C9 at a degenerate configuration (overlap 5 > chunk_size 1):
a fuel budget of 7 ≥ |"  hi  ".strip()| reproduces chunk_text. -/
theorem chunk_text_terminates_witness :
    1 ≤ chunkStep 1 5 ∧
      chunkTextGo (pyStrip "  hi  ".toList) 1 5 7 0 = chunk_text "  hi  ".toList 1 5 :=
  ⟨(chunk_text_terminates "  hi  ".toList 1 5 7).1,
    (chunk_text_terminates "  hi  ".toList 1 5 7).2 (by decide)⟩

/-- One entry of the manifest "files" mapping / of the current-listing state
built by s3_head_pdf_meta in scripts/build_chroma.py: an etag (empty string
models a missing/empty fingerprint, both are falsy in python), a size and an
ISO last-modified timestamp. -/
structure FileMeta where
  etag : String
  size : Int
  last_modified : String
deriving DecidableEq

/-- The keys of a python dict modelled as an association list. -/
def dictKeys (d : List (String × FileMeta)) : List String := d.map Prod.fst

/-- Insertion into an ascending list, used to model python sorted(). -/
def insertSorted (x : String) : List String → List String
  | [] => [x]
  | y :: ys => if compare x y = Ordering.gt then y :: insertSorted x ys else x :: y :: ys

/-- python sorted() on a list of strings. -/
def sortStrings (l : List String) : List String := l.foldr insertSorted []

/-- The per-key change test of compute_diff in scripts/build_chroma.py:
if both etags are truthy and differ the key is changed, OTHERWISE (also when
both etags are present and equal) the key is changed when size or
last_modified differ.  The arguments are previous.get(k) and current.get(k). -/
def metaChanged (p c : Option FileMeta) : Bool :=
  let pe := (p.map FileMeta.etag).getD ""
  let ce := (c.map FileMeta.etag).getD ""
  if pe != "" && ce != "" && pe != ce then true
  else (p.map FileMeta.size != c.map FileMeta.size)
    || (p.map FileMeta.last_modified != c.map FileMeta.last_modified)

/-- compute_diff from scripts/build_chroma.py: added = sorted(cur - prev),
removed = sorted(prev - cur), changed = the keys of sorted(cur ∩ prev) whose
metadata the per-key test flags.  Returned in source order
(added, changed, removed). -/
def compute_diff (previous current : List (String × FileMeta)) :
    List String × List String × List String :=
  let prev_keys := dictKeys previous
  let cur_keys := dictKeys current
  let added := sortStrings ((cur_keys.filter (fun k => !prev_keys.contains k)).dedup)
  let removed := sortStrings ((prev_keys.filter (fun k => !cur_keys.contains k)).dedup)
  let inter := sortStrings ((cur_keys.filter (fun k => prev_keys.contains k)).dedup)
  let changed := inter.filter (fun k => metaChanged (previous.lookup k) (current.lookup k))
  (added, changed, removed)

theorem mem_insertSorted (a x : String) (l : List String) :
    a ∈ insertSorted x l ↔ a = x ∨ a ∈ l := by
  induction l with
  | nil => simp [insertSorted]
  | cons y ys ih =>
    simp only [insertSorted]
    by_cases h : compare x y = Ordering.gt
    · simp only [h, if_true, List.mem_cons, ih]
      tauto
    · simp only [h, if_false, List.mem_cons]

theorem mem_sortStrings (a : String) (l : List String) :
    a ∈ sortStrings l ↔ a ∈ l := by
  induction l with
  | nil => simp [sortStrings]
  | cons x xs ih =>
    simp only [sortStrings, List.foldr_cons] at *
    rw [mem_insertSorted, ih, List.mem_cons]

theorem mem_compute_diff_added (previous current : List (String × FileMeta)) (k : String) :
    k ∈ (compute_diff previous current).1 ↔
      k ∈ dictKeys current ∧ k ∉ dictKeys previous := by
  simp only [compute_diff, mem_sortStrings, List.mem_dedup, List.mem_filter,
    Bool.not_eq_true', ← Bool.not_eq_true, List.contains, List.elem_iff, decide_eq_true_eq]

theorem mem_compute_diff_removed (previous current : List (String × FileMeta)) (k : String) :
    k ∈ (compute_diff previous current).2.2 ↔
      k ∈ dictKeys previous ∧ k ∉ dictKeys current := by
  simp only [compute_diff, mem_sortStrings, List.mem_dedup, List.mem_filter,
    Bool.not_eq_true', ← Bool.not_eq_true, List.contains, List.elem_iff, decide_eq_true_eq]

theorem mem_compute_diff_changed (previous current : List (String × FileMeta)) (k : String) :
    k ∈ (compute_diff previous current).2.1 ↔
      (k ∈ dictKeys current ∧ k ∈ dictKeys previous) ∧
        metaChanged (previous.lookup k) (current.lookup k) = true := by
  simp only [compute_diff, List.mem_filter, mem_sortStrings, List.mem_dedup,
    List.contains, List.elem_iff, decide_eq_true_eq]

/-- Previous manifest for the C1 counterexample: one file with etag
"etag-1". -/
def prevEtagEq : List (String × FileMeta) :=
  [("runbooks/a.pdf", { etag := "etag-1", size := 100, last_modified := "2024-01-01T00:00:00" })]

/-- Current listing for the C1 counterexample: same key, same etag, same
size, but a new last-modified timestamp (the same bytes re-uploaded). -/
def curEtagEq : List (String × FileMeta) :=
  [("runbooks/a.pdf", { etag := "etag-1", size := 100, last_modified := "2024-02-02T00:00:00" })]

/-- C1 counterexample: a key present in both manifest and listing with the
SAME non-empty fingerprint on both sides is nevertheless in the changed set,
because compute_diff falls through to the (size, last_modified) comparison
even when the fingerprints are present and equal. -/
theorem compute_diff_etag_equal_still_changed :
    ((prevEtagEq.lookup "runbooks/a.pdf").map FileMeta.etag = some "etag-1") ∧
    ((curEtagEq.lookup "runbooks/a.pdf").map FileMeta.etag = some "etag-1") ∧
    "runbooks/a.pdf" ∈ (compute_diff prevEtagEq curEtagEq).2.1 := by
  decide

/-- C1 amended: membership in the changed set is decided by fingerprint
inequality only when both fingerprints are present and unequal; in every
other case — including both fingerprints present and equal — the
(size, last_modified) comparison decides.  A key present in the previous
manifest is moreover never in the added set. -/
theorem compute_diff_changed_spec (previous current : List (String × FileMeta)) (k : String) :
    (∀ p c, metaChanged (some p) (some c) = true ↔
      ((p.etag ≠ "" ∧ c.etag ≠ "" ∧ p.etag ≠ c.etag) ∨
        (¬ (p.etag ≠ "" ∧ c.etag ≠ "" ∧ p.etag ≠ c.etag) ∧
          (p.size ≠ c.size ∨ p.last_modified ≠ c.last_modified)))) ∧
    (k ∈ (compute_diff previous current).2.1 ↔
      (k ∈ dictKeys current ∧ k ∈ dictKeys previous) ∧
        metaChanged (previous.lookup k) (current.lookup k) = true) ∧
    (k ∈ dictKeys previous → k ∉ (compute_diff previous current).1) := by
  refine ⟨?_, mem_compute_diff_changed previous current k, ?_⟩
  · intro p c
    simp only [metaChanged, Option.map_some', Option.getD_some, bne_iff_ne, ne_eq,
      Bool.and_eq_true, Bool.or_eq_true, Bool.if_true_left]
    by_cases h1 : p.etag = ""
    · simp [h1]
    · by_cases h2 : c.etag = ""
      · simp [h1, h2]
      · by_cases h3 : p.etag = c.etag
        · simp only [h1, h2, h3]
          simp [Option.some_inj]
        · simp [h1, h2, h3]
  · intro hk hmem
    rw [mem_compute_diff_added] at hmem
    exact hmem.2 hk

/-- Witness for C1 amended at the counterexample dictionaries: the key is in
neither position of the added set since it was already in the manifest. -/
theorem compute_diff_changed_spec_witness :
    "runbooks/a.pdf" ∉ (compute_diff prevEtagEq curEtagEq).1 :=
  (compute_diff_changed_spec prevEtagEq curEtagEq "runbooks/a.pdf").2.2 (by decide)

/-- Previous manifest for C5: D2 (will change), D3 (unchanged), D4 (will be
removed). -/
def prevD : List (String × FileMeta) :=
  [("runbooks/D2.pdf", { etag := "e2", size := 20, last_modified := "t2" }),
   ("runbooks/D3.pdf", { etag := "e3", size := 30, last_modified := "t3" }),
   ("runbooks/D4.pdf", { etag := "e4", size := 40, last_modified := "t4" })]

/-- Current listing for C5: D1 (new), D2 (fingerprint changed, same size and
timestamp), D3 (identical metadata). -/
def curD : List (String × FileMeta) :=
  [("runbooks/D1.pdf", { etag := "e1", size := 10, last_modified := "t1" }),
   ("runbooks/D2.pdf", { etag := "e2x", size := 20, last_modified := "t2" }),
   ("runbooks/D3.pdf", { etag := "e3", size := 30, last_modified := "t3" })]

/-- C5: on the four-document scenario the detector returns exactly
added = D1, changed = D2, removed = D4 (D3 in none of the three), and on
every input the three returned key sets are pairwise disjoint. -/
theorem compute_diff_d1_d4_and_disjoint :
    compute_diff prevD curD =
      (["runbooks/D1.pdf"], ["runbooks/D2.pdf"], ["runbooks/D4.pdf"]) ∧
    (∀ previous current k,
      (k ∈ (compute_diff previous current).1 → k ∉ (compute_diff previous current).2.1) ∧
      (k ∈ (compute_diff previous current).1 → k ∉ (compute_diff previous current).2.2) ∧
      (k ∈ (compute_diff previous current).2.1 → k ∉ (compute_diff previous current).2.2)) := by
  constructor
  · decide
  · intro previous current k
    refine ⟨fun ha hc => ?_, fun ha hr => ?_, fun hc hr => ?_⟩
    · rw [mem_compute_diff_added] at ha
      rw [mem_compute_diff_changed] at hc
      exact ha.2 hc.1.2
    · rw [mem_compute_diff_added] at ha
      rw [mem_compute_diff_removed] at hr
      exact ha.2 hr.1
    · rw [mem_compute_diff_changed] at hc
      rw [mem_compute_diff_removed] at hr
      exact hr.2 hc.1.1

/-- Witness for C5 disjointness at the concrete scenario: D1 is in the added
set, hence not in the changed set. -/
theorem compute_diff_d1_d4_and_disjoint_witness :
    "runbooks/D1.pdf" ∉ (compute_diff prevD curD).2.1 :=
  (compute_diff_d1_d4_and_disjoint.2 prevD curD "runbooks/D1.pdf").1 (by decide)

/-- The identity of a Chroma record.  stable_chunk_id in
scripts/build_chroma.py is the SHA-1 hex digest of "KEY::chunk::INDEX";
we model the digest by its preimage pair (s3 key, chunk index), which the
digest determines and is determined by (collision-freeness of the hash). -/
structure ChunkId where
  key : String
  idx : Nat
deriving DecidableEq

/-- stable_chunk_id from scripts/build_chroma.py (see ChunkId). -/
def stable_chunk_id (s3_key : String) (chunk_index : Nat) : ChunkId :=
  { key := s3_key, idx := chunk_index }

/-- One record of the Chroma collection: id, metadata fields
(s3_key, file, chunk) as written by chroma_index_pdf, the document text and
the embedding vector (components abstracted as Int). -/
structure VectorRecord where
  id : ChunkId
  s3_key : String
  file : String
  chunk : Nat
  document : String
  embedding : List Int
deriving DecidableEq

/-- collection.delete(where s3_key == key) in chroma_delete_pdf of
scripts/build_chroma.py: remove every record whose s3_key metadata matches. -/
def chroma_delete_pdf (col : List VectorRecord) (s3_key : String) : List VectorRecord :=
  col.filter (fun r => r.s3_key != s3_key)

/-- collection.upsert for a single record: replace any record with the same
id, appending the new one. -/
def upsertOne (col : List VectorRecord) (r : VectorRecord) : List VectorRecord :=
  (col.filter (fun x => x.id != r.id)) ++ [r]

/-- collection.upsert(ids, documents, metadatas, embeddings): the records of
one batch upserted in order. -/
def upsertMany (col : List VectorRecord) (rs : List VectorRecord) : List VectorRecord :=
  rs.foldl upsertOne col

/-- The records one collection.upsert call of chroma_index_pdf builds for a
batch starting at chunk offset start: ids = stable ids for start+i,
metadatas = s3_key/file/chunk, documents = the batch, embeddings = the
vectors returned by the embedding call. -/
def mkRecords (s3_key file : String) (start : Nat) (batch : List String)
    (vecs : List (List Int)) : List VectorRecord :=
  (List.range batch.length).map (fun i =>
    { id := stable_chunk_id s3_key (start + i), s3_key := s3_key, file := file,
      chunk := start + i, document := batch.getD i "", embedding := vecs.getD i [] })

/-- The embedding-and-upsert loop of chroma_index_pdf in
scripts/build_chroma.py: for start in range(0, len(chunks), B), embed the
batch chunks[start : start+B] with one API call (the oracle embedFn, whose
exception is an Except.error) and upsert the batch records.  The loop is
modelled with fuel; chroma_index_pdf supplies fuel = |chunks|, sufficient
whenever B ≥ 1. -/
def chromaIndexGo (s3_key file : String) (chunks : List String)
    (embedFn : List String → Except String (List (List Int))) (B : Nat) :
    Nat → Nat → List VectorRecord → Except String (List VectorRecord)
  | 0, _, col => Except.ok col
  | fuel + 1, start, col =>
    if start < chunks.length then
      match embedFn ((chunks.drop start).take B) with
      | Except.error e => Except.error e
      | Except.ok vecs =>
        chromaIndexGo s3_key file chunks embedFn B fuel (start + B)
          (upsertMany col (mkRecords s3_key file start ((chunks.drop start).take B) vecs))
    else Except.ok col

/-- chroma_index_pdf from scripts/build_chroma.py, from the point where the
chunk list has been computed: embed batch by batch of size EMBED_BATCH_SIZE
= B and upsert; the first failing embedding call aborts the run. -/
def chroma_index_pdf (col : List VectorRecord) (s3_key file : String)
    (chunks : List String) (embedFn : List String → Except String (List (List Int)))
    (B : Nat) : Except String (List VectorRecord) :=
  chromaIndexGo s3_key file chunks embedFn B chunks.length 0 col

/-- The flat list of records a successful chroma_index_pdf run produces,
batch by batch (f is the successful embedding oracle). -/
def newRecsGo (s3_key file : String) (chunks : List String)
    (f : List String → List (List Int)) (B : Nat) : Nat → Nat → List VectorRecord
  | 0, _ => []
  | fuel + 1, start =>
    if start < chunks.length then
      mkRecords s3_key file start ((chunks.drop start).take B) (f ((chunks.drop start).take B))
        ++ newRecsGo s3_key file chunks f B fuel (start + B)
    else []

/-- All records produced by one successful chroma_index_pdf run. -/
def newRecords (s3_key file : String) (chunks : List String)
    (f : List String → List (List Int)) (B : Nat) : List VectorRecord :=
  newRecsGo s3_key file chunks f B chunks.length 0

theorem upsertMany_append (col : List VectorRecord) (rs ss : List VectorRecord) :
    upsertMany col (rs ++ ss) = upsertMany (upsertMany col rs) ss := by
  simp [upsertMany, List.foldl_append]

theorem chromaIndexGo_ok (s3_key file : String) (chunks : List String)
    (f : List String → List (List Int)) (B : Nat) :
    ∀ (fuel start : Nat) (col : List VectorRecord),
      chromaIndexGo s3_key file chunks (fun b => Except.ok (f b)) B fuel start col =
        Except.ok (upsertMany col (newRecsGo s3_key file chunks f B fuel start)) := by
  intro fuel
  induction fuel with
  | zero => intro start col; simp [chromaIndexGo, newRecsGo, upsertMany]
  | succ fuel ih =>
    intro start col
    by_cases h : start < chunks.length
    · simp only [chromaIndexGo, newRecsGo, h, if_true]
      rw [ih, upsertMany_append]
    · simp [chromaIndexGo, newRecsGo, h, upsertMany]

theorem upsertMany_eq_of_nodup (col : List VectorRecord) (rs : List VectorRecord)
    (h : (rs.map VectorRecord.id).Nodup) :
    upsertMany col rs =
      col.filter (fun x => !(rs.map VectorRecord.id).contains x.id) ++ rs := by
  induction rs generalizing col with
  | nil => simp [upsertMany]
  | cons r rs ih =>
    simp only [List.map_cons, List.nodup_cons] at h
    have step : upsertMany col (r :: rs) = upsertMany (upsertOne col r) rs := by
      simp [upsertMany]
    rw [step, ih _ h.2]
    simp only [upsertOne]
    rw [List.filter_append, List.filter_filter]
    have hr : (List.filter (fun x => !(rs.map VectorRecord.id).contains x.id) [r]) = [r] := by
      simp only [List.filter, List.contains, List.elem_eq_mem]
      simp [h.1]
    rw [hr]
    have hfun : ∀ x : VectorRecord,
        ((!(rs.map VectorRecord.id).contains x.id) && (x.id != r.id)) =
          (!((r :: rs).map VectorRecord.id).contains x.id) := by
      intro x
      simp only [List.map_cons, List.contains, List.elem_eq_mem, List.mem_cons,
        Bool.not_eq_true', bne, decide_eq_false_iff_not]
      by_cases hx1 : x.id = r.id
      · simp [hx1]
      · by_cases hx2 : x.id ∈ rs.map VectorRecord.id
        · simp [hx1, hx2]
        · simp [hx1, hx2, Ne.symm, (Ne.intro hx1)]
    rw [List.filter_congr (fun x _ => hfun x)]
    simp

theorem mem_mkRecords (s3_key file : String) (start : Nat) (batch : List String)
    (vecs : List (List Int)) (r : VectorRecord) (h : r ∈ mkRecords s3_key file start batch vecs) :
    r.s3_key = s3_key ∧ r.id = stable_chunk_id s3_key r.chunk ∧
      start ≤ r.chunk ∧ r.chunk < start + batch.length := by
  simp only [mkRecords, List.mem_map, List.mem_range] at h
  obtain ⟨i, hi, rfl⟩ := h
  refine ⟨rfl, rfl, Nat.le_add_right _ _, ?_⟩
  show start + i < start + batch.length
  omega

theorem mem_newRecsGo (s3_key file : String) (chunks : List String)
    (f : List String → List (List Int)) (B : Nat) :
    ∀ (fuel start : Nat) (r : VectorRecord), r ∈ newRecsGo s3_key file chunks f B fuel start →
      r.s3_key = s3_key ∧ r.id = stable_chunk_id s3_key r.chunk ∧ start ≤ r.chunk := by
  intro fuel
  induction fuel with
  | zero => intro start r h; simp [newRecsGo] at h
  | succ fuel ih =>
    intro start r h
    by_cases hs : start < chunks.length
    · simp only [newRecsGo, hs, if_true, List.mem_append] at h
      rcases h with h | h
      · have := mem_mkRecords s3_key file start _ _ r h
        exact ⟨this.1, this.2.1, this.2.2.1⟩
      · have := ih (start + B) r h
        exact ⟨this.1, this.2.1, by omega⟩
    · simp [newRecsGo, hs] at h

theorem nodup_chunk_newRecsGo (s3_key file : String) (chunks : List String)
    (f : List String → List (List Int)) (B : Nat) :
    ∀ (fuel start : Nat),
      ((newRecsGo s3_key file chunks f B fuel start).map VectorRecord.chunk).Nodup := by
  intro fuel
  induction fuel with
  | zero => intro start; simp [newRecsGo]
  | succ fuel ih =>
    intro start
    by_cases hs : start < chunks.length
    · simp only [newRecsGo, hs, if_true, List.map_append]
      rw [List.nodup_append]
      refine ⟨?_, ih (start + B), ?_⟩
      · simp only [mkRecords, List.map_map]
        have : (VectorRecord.chunk ∘ fun i =>
            ({ id := stable_chunk_id s3_key (start + i), s3_key := s3_key, file := file,
               chunk := start + i,
               document := ((chunks.drop start).take B).getD i "",
               embedding := (f ((chunks.drop start).take B)).getD i [] } : VectorRecord)) =
            (fun i => start + i) := rfl
        rw [this]
        exact (List.nodup_range _).map (fun a b h => by omega)
      · intro a ha hb
        simp only [mkRecords, List.map_map, List.mem_map, List.mem_range] at ha
        obtain ⟨i, hi, hai⟩ := ha
        simp only [List.mem_map] at hb
        obtain ⟨r, hr, har⟩ := hb
        have hbound := (mem_newRecsGo s3_key file chunks f B (fuel) (start + B) r hr).2.2
        have hlen : ((chunks.drop start).take B).length ≤ B := by
          simp [List.length_take]
        have hai2 : a = start + i := by
          rw [← hai]; rfl
        rw [← har] at hai2
        omega
    · simp [newRecsGo, hs]

theorem nodup_id_newRecsGo (s3_key file : String) (chunks : List String)
    (f : List String → List (List Int)) (B : Nat) (fuel start : Nat) :
    ((newRecsGo s3_key file chunks f B fuel start).map VectorRecord.id).Nodup := by
  have hmap : (newRecsGo s3_key file chunks f B fuel start).map VectorRecord.id =
      ((newRecsGo s3_key file chunks f B fuel start).map VectorRecord.chunk).map
        (fun c => stable_chunk_id s3_key c) := by
    rw [List.map_map]
    apply List.map_congr_left
    intro r hr
    exact (mem_newRecsGo s3_key file chunks f B fuel start r hr).2.1
  rw [hmap]
  exact (nodup_chunk_newRecsGo s3_key file chunks f B fuel start).map
    (fun a b h => by simpa [stable_chunk_id, ChunkId.mk.injEq] using h)

theorem length_newRecsGo (s3_key file : String) (chunks : List String)
    (f : List String → List (List Int)) (B : Nat) (hB : 1 ≤ B) :
    ∀ (fuel start : Nat), chunks.length - start ≤ fuel →
      (newRecsGo s3_key file chunks f B fuel start).length = chunks.length - start := by
  intro fuel
  induction fuel with
  | zero => intro start h; simp [newRecsGo]; omega
  | succ fuel ih =>
    intro start h
    by_cases hs : start < chunks.length
    · simp only [newRecsGo, hs, if_true, List.length_append]
      rw [ih (start + B) (by omega)]
      simp only [mkRecords, List.length_map, List.length_range, List.length_take,
        List.length_drop]
      omega
    · simp only [newRecsGo, hs, if_false, List.length_nil]
      omega

/-- C6: processing a changed key exactly as main in scripts/build_chroma.py
does — chroma_delete_pdf for the key first, then chroma_index_pdf — leaves,
for any prior collection state and any successful embedding oracle, exactly
the records of the new run under that s3_key: the run succeeds, the records
filtered by the key are precisely the freshly built ones (whose count is the
number of new chunks), and no record with that key survives the delete. -/
theorem changed_key_replaced (col : List VectorRecord) (s3_key file : String)
    (chunks : List String) (f : List String → List (List Int)) (B : Nat) (hB : 1 ≤ B) :
    chroma_index_pdf (chroma_delete_pdf col s3_key) s3_key file chunks
        (fun b => Except.ok (f b)) B =
      Except.ok (upsertMany (chroma_delete_pdf col s3_key) (newRecords s3_key file chunks f B)) ∧
    (upsertMany (chroma_delete_pdf col s3_key) (newRecords s3_key file chunks f B)).filter
        (fun r => r.s3_key == s3_key) = newRecords s3_key file chunks f B ∧
    (newRecords s3_key file chunks f B).length = chunks.length ∧
    (∀ r ∈ chroma_delete_pdf col s3_key, r.s3_key ≠ s3_key) := by
  have hdel : ∀ r ∈ chroma_delete_pdf col s3_key, r.s3_key ≠ s3_key := by
    intro r hr
    simp only [chroma_delete_pdf, List.mem_filter, bne_iff_ne, ne_eq] at hr
    exact hr.2
  refine ⟨?_, ?_, ?_, hdel⟩
  · exact chromaIndexGo_ok s3_key file chunks f B chunks.length 0 (chroma_delete_pdf col s3_key)
  · simp only [newRecords]
    rw [upsertMany_eq_of_nodup _ _ (nodup_id_newRecsGo s3_key file chunks f B _ _)]
    rw [List.filter_append]
    have h1 : List.filter (fun r => r.s3_key == s3_key)
        (List.filter
          (fun x => !((newRecsGo s3_key file chunks f B chunks.length 0).map VectorRecord.id).contains x.id)
          (chroma_delete_pdf col s3_key)) = [] := by
      rw [List.filter_eq_nil_iff]
      intro r hr
      have hr2 := List.mem_of_mem_filter hr
      have := hdel r hr2
      simp [this]
    have h2 : List.filter (fun r => r.s3_key == s3_key)
        (newRecsGo s3_key file chunks f B chunks.length 0) =
        newRecsGo s3_key file chunks f B chunks.length 0 := by
      rw [List.filter_eq_self]
      intro r hr
      have := (mem_newRecsGo s3_key file chunks f B _ _ r hr).1
      simp [this]
    rw [h1, h2]
    simp
  · simp only [newRecords]
    exact length_newRecsGo s3_key file chunks f B hB chunks.length 0 (by omega)

/-- Witness for C6: replacing key "k" (one stale record in the collection,
one foreign record) with 3 new chunks at batch size 2 leaves exactly the 3
new records under "k". -/
theorem changed_key_replaced_witness :
    (1 ≤ 2) ∧
    (newRecords "k" "k.pdf" ["c0", "c1", "c2"] (fun b => b.map (fun _ => [7])) 2).length = 3 :=
  ⟨by decide,
    (changed_key_replaced
      [{ id := stable_chunk_id "k" 0, s3_key := "k", file := "k.pdf", chunk := 0,
         document := "old", embedding := [1] },
       { id := stable_chunk_id "other" 0, s3_key := "other", file := "o.pdf", chunk := 0,
         document := "x", embedding := [2] }]
      "k" "k.pdf" ["c0", "c1", "c2"] (fun b => b.map (fun _ => [7])) 2 (by decide)).2.2.1⟩

/-- The retry loop of embed_with_retry in scripts/rag_ingest_to_chroma.py.
The oracle gives the outcome of the embedding call at each attempt number
(an exception is an Except.error).  Arguments: current attempt number,
current delay in seconds (python floats 1.0, 2.0, ..., 20.0 are integral, so
Nat), remaining attempts.  Result: the returned value (none models python's
implicit None when max_retries = 0) paired with the list of sleep delays
performed.  delay starts at 1.0 and after each sleep becomes
min(delay * 2, 20.0). -/
def embedRetryGo (oracle : Nat → Except String (List (List Int))) :
    Nat → Nat → Nat → Option (Except String (List (List Int))) × List Nat
  | _, _, 0 => (none, [])
  | attempt, delay, remaining + 1 =>
    match oracle attempt with
    | Except.ok v => (some (Except.ok v), [])
    | Except.error e =>
      if remaining = 0 then (some (Except.error e), [])
      else
        let r := embedRetryGo oracle (attempt + 1) (min (delay * 2) 20) remaining
        (r.1, delay :: r.2)

/-- embed_with_retry from scripts/rag_ingest_to_chroma.py: attempts
1..max_retries, re-raising the exception of the final attempt. -/
def embed_with_retry (oracle : Nat → Except String (List (List Int)))
    (max_retries : Nat) : Option (Except String (List (List Int))) × List Nat :=
  embedRetryGo oracle 1 1 max_retries

/-- The batch loop of main in scripts/rag_ingest_to_chroma.py:
batch = max(1, args.batch); for i in range(0, len(docs), batch) take
docs[i : i+batch].  Modelled with fuel = |docs|, sufficient since the step
is at least 1. -/
def ragBatchesGo (b : Nat) (docs : List String) : Nat → Nat → List (List String)
  | 0, _ => []
  | fuel + 1, i =>
    if i < docs.length then
      ((docs.drop i).take b) :: ragBatchesGo b docs fuel (i + b)
    else []

/-- The list of embedding batches the rag ingest loop issues, one call per
element. -/
def ragBatches (B : Nat) (docs : List String) : List (List String) :=
  ragBatchesGo (max 1 B) docs docs.length 0

theorem ragBatchesGo_join (b : Nat) (docs : List String) (hb : 1 ≤ b) :
    ∀ (fuel i : Nat), docs.length - i ≤ fuel →
      (ragBatchesGo b docs fuel i).flatten = docs.drop i := by
  intro fuel
  induction fuel with
  | zero =>
    intro i h
    have : docs.length ≤ i := by omega
    simp [ragBatchesGo, List.drop_eq_nil_of_le this]
  | succ fuel ih =>
    intro i h
    by_cases hi : i < docs.length
    · simp only [ragBatchesGo, hi, if_true, List.flatten_cons]
      rw [ih (i + b) (by omega)]
      rw [← List.drop_drop, List.take_append_drop]
    · simp [ragBatchesGo, hi, List.drop_eq_nil_of_le (by omega : docs.length ≤ i)]

theorem mem_ragBatchesGo_length (b : Nat) (docs : List String) :
    ∀ (fuel i : Nat) (s : List String), s ∈ ragBatchesGo b docs fuel i → s.length ≤ b := by
  intro fuel
  induction fuel with
  | zero => intro i s h; simp [ragBatchesGo] at h
  | succ fuel ih =>
    intro i s h
    by_cases hi : i < docs.length
    · simp only [ragBatchesGo, hi, if_true, List.mem_cons] at h
      rcases h with rfl | h
      · simp [List.length_take]
      · exact ih (i + b) s h
    · simp [ragBatchesGo, hi] at h

theorem backoff_shift (d j : Nat) :
    min (min (d * 2) 20 * 2 ^ j) 20 = min (d * 2 ^ (j + 1)) 20 := by
  have hpow : 1 ≤ 2 ^ j := Nat.one_le_two_pow
  rcases le_or_lt (d * 2) 20 with h | h
  · rw [Nat.min_eq_left h, pow_succ]
    have : d * 2 * 2 ^ j = d * (2 ^ j * 2) := by ring
    rw [this]
  · have h1 : min (d * 2) 20 = 20 := Nat.min_eq_right (by omega)
    rw [h1]
    have h2 : 20 ≤ 20 * 2 ^ j := Nat.le_mul_of_pos_right 20 (by omega)
    have h3 : 20 ≤ d * 2 ^ (j + 1) := by
      have : d * 2 ≤ d * 2 ^ (j + 1) := by
        have : (2 : Nat) ≤ 2 ^ (j + 1) := by
          calc (2 : Nat) = 2 ^ 1 := by norm_num
            _ ≤ 2 ^ (j + 1) := Nat.pow_le_pow_right (by omega) (by omega)
        exact Nat.mul_le_mul_left d this
      omega
    rw [Nat.min_eq_right h2, Nat.min_eq_right h3]

theorem embedRetryGo_spec (oracle : Nat → Except String (List (List Int))) :
    ∀ (R attempt delay : Nat), delay ≤ 20 →
      (∀ v, (embedRetryGo oracle attempt delay R).1 = some (Except.ok v) →
        ∃ t, attempt ≤ t ∧ t < attempt + R ∧ oracle t = Except.ok v ∧
          (∀ s, attempt ≤ s → s < t → ∃ e, oracle s = Except.error e) ∧
          (embedRetryGo oracle attempt delay R).2 =
            (List.range (t - attempt)).map (fun j => min (delay * 2 ^ j) 20)) ∧
      (∀ e, (embedRetryGo oracle attempt delay R).1 = some (Except.error e) →
        1 ≤ R ∧ oracle (attempt + R - 1) = Except.error e ∧
          (∀ s, attempt ≤ s → s < attempt + R → ∃ e2, oracle s = Except.error e2) ∧
          (embedRetryGo oracle attempt delay R).2 =
            (List.range (R - 1)).map (fun j => min (delay * 2 ^ j) 20)) := by
  intro R
  induction R with
  | zero =>
    intro attempt delay hdelay
    constructor
    · intro v h; simp [embedRetryGo] at h
    · intro e h; simp [embedRetryGo] at h
  | succ R ih =>
    intro attempt delay hdelay
    constructor
    · intro v h
      match horacle : oracle attempt with
      | Except.ok w =>
        simp only [embedRetryGo, horacle, Option.some_inj] at h
        refine ⟨attempt, Nat.le_refl _, by omega, ?_, ?_, ?_⟩
        · rw [horacle]
          exact congrArg Except.ok (by injection h)
        · intro s h1 h2; omega
        · simp [embedRetryGo, horacle]
      | Except.error e0 =>
        by_cases hR : R = 0
        · subst hR
          simp only [embedRetryGo, horacle, if_true] at h
          cases h
        · simp only [embedRetryGo, horacle, hR, if_false] at h
          have := (ih (attempt + 1) (min (delay * 2) 20) (Nat.min_le_right _ _)).1 v h
          obtain ⟨t, ht1, ht2, ht3, ht4, ht5⟩ := this
          refine ⟨t, by omega, by omega, ht3, ?_, ?_⟩
          · intro s h1 h2
            rcases Nat.eq_or_lt_of_le h1 with rfl | hlt
            · exact ⟨e0, horacle⟩
            · exact ht4 s (by omega) h2
          · simp only [embedRetryGo, horacle, hR, if_false]
            rw [ht5]
            have hta : t - attempt = (t - (attempt + 1)) + 1 := by omega
            rw [hta, List.range_succ_eq_map, List.map_cons]
            congr 1
            · simp [Nat.min_eq_left hdelay]
            · rw [List.map_map]
              apply List.map_congr_left
              intro j hj
              simp only [Function.comp_apply]
              exact backoff_shift delay j
    · intro e h
      match horacle : oracle attempt with
      | Except.ok w =>
        simp only [embedRetryGo, horacle, Option.some_inj] at h
        cases h
      | Except.error e0 =>
        by_cases hR : R = 0
        · subst hR
          simp only [embedRetryGo, horacle, if_true, Option.some_inj] at h
          have he : e0 = e := by injection h
          subst he
          refine ⟨by omega, by simpa using horacle, ?_, by simp [embedRetryGo, horacle]⟩
          intro s h1 h2
          have : s = attempt := by omega
          subst this
          exact ⟨e0, horacle⟩
        · simp only [embedRetryGo, horacle, hR, if_false] at h
          have := (ih (attempt + 1) (min (delay * 2) 20) (Nat.min_le_right _ _)).2 e h
          obtain ⟨hR1, ht2, ht3, ht4⟩ := this
          refine ⟨by omega, by rw [← ht2]; congr 1; omega, ?_, ?_⟩
          · intro s h1 h2
            rcases Nat.eq_or_lt_of_le h1 with rfl | hlt
            · exact ⟨e0, horacle⟩
            · exact ht3 s (by omega) (by omega)
          · simp only [embedRetryGo, horacle, hR, if_false]
            rw [ht4]
            have hta : R + 1 - 1 = (R - 1) + 1 := by omega
            rw [hta, List.range_succ_eq_map, List.map_cons]
            congr 1
            · simp [Nat.min_eq_left hdelay]
            · rw [List.map_map]
              apply List.map_congr_left
              intro j hj
              simp only [Function.comp_apply]
              exact backoff_shift delay j

deriving instance DecidableEq for Except

/-- C7 counterexample: a transient failure of the single per-batch embedding
call in build_chroma.py's chroma_index_pdf fails the run immediately — no
retry is attempted — although the very same transient pattern (failure on
attempt 1, success on attempt 2) succeeds under the retry policy of
rag_ingest_to_chroma.py's embed_with_retry. -/
theorem embedding_no_retry_in_build_chroma :
    chroma_index_pdf [] "k" "k.pdf" ["c"] (fun _ => Except.error "HTTP 429") 64 =
      Except.error "HTTP 429" ∧
    (embed_with_retry (fun t => if t = 1 then Except.error "HTTP 429" else Except.ok [[1]]) 6).1 =
      some (Except.ok [[1]]) := by
  decide

/-- C7 amended: the rag ingest loop partitions the chunk texts into batches
of size at most max(1, B) that concatenate back to the input; its
embed_with_retry (max_retries = 6) either returns the full vector list of
the first successful attempt — every earlier attempt having failed, with
sleeps 1, 2, 4, ... seconds capped at 20 between attempts — or fails fatally
after 6 failed attempts; build_chroma.py's chroma_index_pdf instead issues a
single unretried call per batch, so its first transient failure aborts the
run. -/
theorem embed_retry_spec :
    (∀ (docs : List String) (B : Nat),
      (ragBatches B docs).flatten = docs ∧ ∀ b2 ∈ ragBatches B docs, b2.length ≤ max 1 B) ∧
    (∀ (oracle : Nat → Except String (List (List Int))) v,
      (embed_with_retry oracle 6).1 = some (Except.ok v) →
        ∃ t, 1 ≤ t ∧ t ≤ 6 ∧ oracle t = Except.ok v ∧
          (∀ s, 1 ≤ s → s < t → ∃ e, oracle s = Except.error e) ∧
          (embed_with_retry oracle 6).2 =
            (List.range (t - 1)).map (fun j => min (2 ^ j) 20)) ∧
    (∀ (oracle : Nat → Except String (List (List Int))) e,
      (embed_with_retry oracle 6).1 = some (Except.error e) →
        oracle 6 = Except.error e ∧
          (∀ s, 1 ≤ s → s ≤ 6 → ∃ e2, oracle s = Except.error e2) ∧
          (embed_with_retry oracle 6).2 =
            (List.range 5).map (fun j => min (2 ^ j) 20)) ∧
    (∀ (col : List VectorRecord) (s3_key file : String) (chunks : List String)
      (e : String) (B : Nat), chunks ≠ [] →
        chroma_index_pdf col s3_key file chunks (fun _ => Except.error e) B =
          Except.error e) := by
  refine ⟨?_, ?_, ?_, ?_⟩
  · intro docs B
    constructor
    · have := ragBatchesGo_join (max 1 B) docs (by omega) docs.length 0 (by omega)
      simpa [ragBatches] using this
    · intro b2 hb2
      exact mem_ragBatchesGo_length (max 1 B) docs docs.length 0 b2 hb2
  · intro oracle v h
    have := (embedRetryGo_spec oracle 6 1 1 (by omega)).1 v h
    obtain ⟨t, ht1, ht2, ht3, ht4, ht5⟩ := this
    refine ⟨t, ht1, by omega, ht3, ht4, ?_⟩
    have h5 : (embed_with_retry oracle 6).2 =
        (List.range (t - 1)).map (fun j => min (1 * 2 ^ j) 20) := ht5
    rw [h5]
    simp only [Nat.one_mul]
  · intro oracle e h
    have := (embedRetryGo_spec oracle 6 1 1 (by omega)).2 e h
    obtain ⟨hR1, ht2, ht3, ht4⟩ := this
    refine ⟨by simpa using ht2, fun s hs1 hs2 => ht3 s hs1 (by omega), ?_⟩
    have h4 : (embed_with_retry oracle 6).2 =
        (List.range (6 - 1)).map (fun j => min (1 * 2 ^ j) 20) := ht4
    rw [h4]
    simp only [Nat.one_mul]
  · intro col s3_key file chunks e B hne
    have hlen : chunks.length ≠ 0 := by
      intro h0
      exact hne (List.length_eq_zero.mp h0)
    obtain ⟨n, hn⟩ : ∃ n, chunks.length = n + 1 := ⟨chunks.length - 1, by omega⟩
    rw [chroma_index_pdf, hn]
    simp [chromaIndexGo, Nat.pos_of_ne_zero hlen]

/-- Witness for C7 amended: the no-retry conjunct evaluated on a two-chunk
input with an always-failing oracle. -/
theorem embed_retry_spec_witness :
    chroma_index_pdf [] "k" "k.pdf" ["c0", "c1"] (fun _ => Except.error "timeout") 64 =
      Except.error "timeout" :=
  embed_retry_spec.2.2.2 [] "k" "k.pdf" ["c0", "c1"] "timeout" 64 (by decide)

/-- The local Chroma store directory: the collections it holds and their
records.  none models an absent local directory. -/
structure LocalChroma where
  collections : List String
  records : List VectorRecord
deriving DecidableEq

/-- The durable S3 state touched by a run: the objects under the vectors
S3 key space (key, etag pairs) and the manifest object content. -/
structure DurableState where
  vectorObjects : List (String × String)
  manifestObj : Option String
deriving DecidableEq

/-- Local plus durable state of a build_chroma.py run. -/
structure WorldState where
  localStore : Option LocalChroma
  durable : DurableState
deriving DecidableEq

/-- open_chroma from scripts/build_chroma.py: os.makedirs(exist_ok=True)
followed by PersistentClient + get_or_create_collection — an absent local
directory becomes an empty store, and the collection is created when it does
not exist yet. -/
def open_chroma (loc : Option LocalChroma) (collection : String) : LocalChroma :=
  let base := loc.getD { collections := [], records := [] }
  if collection ∈ base.collections then base
  else { base with collections := base.collections ++ [collection] }

/-- The dry-run execution path of main in scripts/build_chroma.py
(args.dry_run = True), which the source reaches after reading the manifest
and listing: exit unchanged when the listing is empty (SystemExit) or the
diff is empty; otherwise clear the local store under --rebuild (the rmtree
is NOT guarded by dry_run), skip the store download, and open the local
Chroma store (open_chroma runs unconditionally).  All deletes, indexing,
uploads and the manifest write are print-only under dry-run, so the durable
state is carried through untouched. -/
def mainDryRun (rebuild : Bool) (previous current : List (String × FileMeta))
    (collection : String) (s : WorldState) : WorldState :=
  if dictKeys current = [] then s
  else
    let d := compute_diff previous current
    if d.1 = [] ∧ d.2.1 = [] ∧ d.2.2 = [] then s
    else
      let loc0 := if rebuild then none else s.localStore
      let store := open_chroma loc0 collection
      { localStore := some store, durable := s.durable }

/-- A one-file listing used by the C2 evaluations: one new PDF, so the diff
is non-empty. -/
def listingOneNew : List (String × FileMeta) :=
  [("runbooks/a.pdf", { etag := "e1", size := 10, last_modified := "2024-01-01" })]

/-- Starting state for the C2 evaluations: no local Chroma store, some
durable vectors and manifest. -/
def worldNoLocal : WorldState :=
  { localStore := none,
    durable := { vectorObjects := [("v/chroma.sqlite3", "etag0")],
                 manifestObj := some "manifest0" } }

/-- A populated local store used by the C2 rebuild evaluation. -/
def populatedLocal : LocalChroma :=
  { collections := ["runbooks_dev"],
    records := [{ id := stable_chunk_id "runbooks/a.pdf" 0,
                  s3_key := "runbooks/a.pdf", file := "a.pdf", chunk := 0,
                  document := "d", embedding := [1] }] }

/-- Starting state for the C2 rebuild evaluation. -/
def worldPopulated : WorldState :=
  { localStore := some populatedLocal,
    durable := { vectorObjects := [], manifestObj := none } }

/-- C2: the durable state is indeed never touched by a dry run, for every
flag combination and every starting state. -/
theorem dry_run_durable_unchanged :
    (∀ (rebuild : Bool) (previous current : List (String × FileMeta))
      (collection : String) (s : WorldState),
        (mainDryRun rebuild previous current collection s).durable = s.durable) ∧
    (mainDryRun false [] listingOneNew "runbooks_dev" worldNoLocal).localStore =
      some { collections := ["runbooks_dev"], records := [] } := by
  constructor
  · intro rebuild previous current collection s
    rw [mainDryRun]
    by_cases h1 : dictKeys current = []
    · simp [h1]
    · simp only [h1, if_false]
      by_cases h2 : (compute_diff previous current).1 = [] ∧
          (compute_diff previous current).2.1 = [] ∧ (compute_diff previous current).2.2 = []
      · simp [h2]
      · simp [h2]
  · decide

/-- C2 failing input, as a closed evaluation: a dry run without --rebuild,
starting with NO local Chroma store and a non-empty diff, ends with a local
store present (directory created, collection created) — the local state is
not byte-for-byte unchanged — while the durable state is preserved; and a
dry run WITH --rebuild discards existing local records. -/
theorem dry_run_mutates_local_state :
    mainDryRun false [] listingOneNew "runbooks_dev" worldNoLocal ≠ worldNoLocal ∧
    (mainDryRun true [] listingOneNew "runbooks_dev" worldPopulated).localStore ≠
      some populatedLocal := by
  constructor
  · decide
  · decide

/-- The effective result count of the ask route in lambda/app.py:
top_k = int(req.get("top_k") or 5) — absent and 0 are falsy, so both give 5 —
followed by: if top_k < 1 or top_k > 10: top_k = 5. -/
def effective_top_k (raw : Option Int) : Int :=
  let t : Int :=
    match raw with
    | none => 5
    | some v => if v = 0 then 5 else v
  if t < 1 ∨ 10 < t then 5 else t

/-- Python str.strip() on a String, via the character-list model (the
builtin String.trim does not reduce in the kernel). -/
def pyStripStr (s : String) : String := String.mk (pyStrip s.data)

/-- The chunk metadata dict stored by the indexer and echoed by the ask
route (each field may be absent). -/
structure ChunkMeta where
  file : Option String
  s3_key : Option String
  chunk : Option Nat
deriving DecidableEq

/-- One retrieval result of _retrieve in lambda/app.py: document text,
metadata (None becomes the empty dict), distance (abstracted as Int). -/
structure RagCtx where
  text : String
  meta : ChunkMeta
  distance : Int
deriving DecidableEq

/-- The zip loop of _retrieve in lambda/app.py: python zip truncates to the
shortest of documents/metadatas/distances; a None metadata entry becomes the
empty dict. -/
def retrieveZip (docs : List String) (metas : List (Option ChunkMeta)) (dists : List Int) :
    List RagCtx :=
  (docs.zip (metas.zip dists)).map (fun p =>
    { text := p.1, meta := p.2.1.getD { file := none, s3_key := none, chunk := none },
      distance := p.2.2 })

/-- One content part of a language-model response output item
(getattr(c, "type"), getattr(c, "text")). -/
structure LMContent where
  ctype : String
  text : Option String
deriving DecidableEq

/-- One output item of a language-model response. -/
structure LMItem where
  itype : Option String
  content : List LMContent
deriving DecidableEq

/-- The language-model response shape _answer extracts from: an optional
output_text convenience field and a list of output items. -/
structure LMResponse where
  output_text : Option String
  output : List LMItem
deriving DecidableEq

/-- The text a content part contributes in _answer's fallback loop: only
parts of type "output_text" or "text" contribute, a missing text attribute
contributes "". -/
def contentText (c : LMContent) : String :=
  if c.ctype = "output_text" ∨ c.ctype = "text" then (c.text.getD "") else ""

/-- The text an output item contributes: only items of type "message". -/
def itemText (it : LMItem) : String :=
  if it.itype = some "message" then String.join (it.content.map contentText) else ""

/-- The out_text accumulation of _answer's fallback loop in lambda/app.py. -/
def collect_output (items : List LMItem) : String :=
  String.join (items.map itemText)

/-- The defensive text extraction of _answer in lambda/app.py: a non-blank
output_text string wins (stripped); otherwise the concatenated message text,
stripped; and when that is empty the sentinel "No answer returned.". -/
def extract_answer (resp : LMResponse) : String :=
  let fallback :=
    if pyStripStr (collect_output resp.output) = "" then "No answer returned."
    else pyStripStr (collect_output resp.output)
  match resp.output_text with
  | some ot => if pyStripStr ot ≠ "" then pyStripStr ot else fallback
  | none => fallback

/-- _answer from lambda/app.py with the single language-model call
abstracted as its outcome: a raised exception (Except.error) propagates out
of _answer, a returned response goes through extract_answer. -/
def answer_model (llm : Except String LMResponse) : Except String String :=
  match llm with
  | Except.error e => Except.error e
  | Except.ok resp => Except.ok (extract_answer resp)

/-- One entry of the sources array of the ask response. -/
structure AskSource where
  file : Option String
  s3_key : Option String
  chunk : Option Nat
  distance : Option Int
deriving DecidableEq

/-- The response body of a successful ask request. -/
structure AskResponse where
  question : String
  top_k : Int
  sources : List AskSource
  answer : String
deriving DecidableEq

/-- The outcome of the ask route: a 200 body or an error status and code
(produced by lambda_handler's except clauses). -/
inductive ApiResult where
  | ok (resp : AskResponse)
  | err (status : Int) (code : String)
deriving DecidableEq

/-- The sources array built from the retrieved contexts in the ask branch of
lambda_handler. -/
def askSources (ctx : List RagCtx) : List AskSource :=
  ctx.map (fun c =>
    { file := c.meta.file, s3_key := c.meta.s3_key, chunk := c.meta.chunk,
      distance := some c.distance })

/-- The POST /runbooks/ask branch of lambda_handler in lambda/app.py, with
the retrieval backend's raw query results and the language-model outcome as
oracle inputs: parse question (strip; empty gives a 400), compute the
effective top_k, zip the retrieval results, call _answer — whose raised
exception falls to the generic handler, a 500 UNHANDLED — and otherwise
echo question, top_k, sources and answer. -/
def runbooks_ask (questionRaw : Option String) (topKRaw : Option Int)
    (docs : List String) (metas : List (Option ChunkMeta)) (dists : List Int)
    (llm : Except String LMResponse) : ApiResult :=
  let question := pyStripStr (questionRaw.getD "")
  let top_k := effective_top_k topKRaw
  if question = "" then ApiResult.err 400 "MISSING_QUESTION"
  else
    let ctx := retrieveZip docs metas dists
    match answer_model llm with
    | Except.error _ => ApiResult.err 500 "UNHANDLED"
    | Except.ok ans =>
      ApiResult.ok { question := question, top_k := top_k,
                     sources := askSources ctx, answer := ans }

/-- C3 counterexample: topK = 11 yields an effective value of 5, not the
claimed clamp-to-10, and topK = -2 yields 5, not the claimed clamp-to-1. -/
theorem top_k_reset_not_clamped :
    effective_top_k (some 11) ≠ 10 ∧ effective_top_k (some 11) = 5 ∧
    effective_top_k (some (-2)) ≠ 1 ∧ effective_top_k (some (-2)) = 5 := by
  refine ⟨by decide, by decide, by decide, by decide⟩

/-- C3 amended: the effective result count defaults to 5 when topK is absent
or 0, equals topK when 1 ≤ topK ≤ 10, and RESETS TO 5 (not to the nearest
bound) when topK is outside [1,10]; the ask response echoes the effective
value and carries at most that many sources (given the vector-store contract
that the query returns at most that many documents). -/
theorem top_k_spec (v : Int) (qr : String) (tkRaw : Option Int)
    (docs : List String) (metas : List (Option ChunkMeta)) (dists : List Int)
    (llm : Except String LMResponse) :
    effective_top_k none = 5 ∧
    effective_top_k (some 0) = 5 ∧
    (1 ≤ v → v ≤ 10 → effective_top_k (some v) = v) ∧
    ((v < 1 ∨ 10 < v) → effective_top_k (some v) = 5) ∧
    (docs.length ≤ (effective_top_k tkRaw).toNat →
      ∀ resp, runbooks_ask (some qr) tkRaw docs metas dists llm = ApiResult.ok resp →
        resp.top_k = effective_top_k tkRaw ∧
          resp.sources.length ≤ (effective_top_k tkRaw).toNat) := by
  refine ⟨by decide, by decide, ?_, ?_, ?_⟩
  · intro h1 h2
    have hv : ¬ (v = 0) := by omega
    simp only [effective_top_k, hv, if_false]
    have : ¬ (v < 1 ∨ 10 < v) := by omega
    simp [this]
  · intro h
    by_cases hv : v = 0
    · simp [effective_top_k, hv]
    · simp only [effective_top_k, hv, if_false]
      simp [h]
  · intro hlen resp h
    rw [runbooks_ask] at h
    by_cases hq : pyStripStr ((some qr : Option String).getD "") = ""
    · simp only [hq, if_true] at h
      cases h
    · simp only [hq, if_false] at h
      match llm with
      | Except.error e =>
        simp [answer_model] at h
      | Except.ok lmResp =>
        simp only [answer_model] at h
        have hresp : resp = AskResponse.mk (pyStripStr ((some qr : Option String).getD ""))
            (effective_top_k tkRaw) (askSources (retrieveZip docs metas dists))
            (extract_answer lmResp) := by
          cases h
          rfl
        subst hresp
        refine ⟨rfl, ?_⟩
        show (askSources (retrieveZip docs metas dists)).length ≤ _
        refine le_trans ?_ hlen
        simp only [askSources, retrieveZip, List.length_map, List.length_zip]
        omega

/-- A language-model response with a usable output_text, for witnesses. -/
def lmOkEx : LMResponse := { output_text := some "ans", output := [] }

/-- Witness for C3 amended: topK = 7 is used as-is, and a concrete ask call
with topK = 3 echoes 3 and returns 2 ≤ 3 sources. -/
theorem top_k_spec_witness :
    effective_top_k (some 7) = 7 ∧
    ((AskResponse.mk "q" 3
        [AskSource.mk none none none (some 1), AskSource.mk none none none (some 2)]
        "ans").top_k = effective_top_k (some 3) ∧
      (AskResponse.mk "q" 3
        [AskSource.mk none none none (some 1), AskSource.mk none none none (some 2)]
        "ans").sources.length ≤ (effective_top_k (some 3)).toNat) :=
  ⟨(top_k_spec 7 "q" (some 3) ["d1", "d2"] [none, none] [1, 2]
      (Except.ok lmOkEx)).2.2.1 (by decide) (by decide),
   (top_k_spec 7 "q" (some 3) ["d1", "d2"] [none, none] [1, 2]
      (Except.ok lmOkEx)).2.2.2.2 (by decide) _ (by decide)⟩

/-- C4 counterexample: a failed language-model call does NOT produce the
sentinel — _answer propagates the exception, and the ask route then answers
500 UNHANDLED, without delivering the retrieval results. -/
theorem llm_failure_propagates :
    answer_model (Except.error "APIConnectionError") = Except.error "APIConnectionError" ∧
    Except.error "APIConnectionError" ≠ Except.ok "No answer returned." ∧
    runbooks_ask (some "q") (some 5) ["doc"] [none] [0] (Except.error "APIConnectionError") =
      ApiResult.err 500 "UNHANDLED" := by
  refine ⟨by decide, by decide, by decide⟩

/-- C4 amended: when the language-model call RETURNS a response whose
extracted text is blank, _answer yields the sentinel "No answer returned."
and the ask route still delivers the retrieval results in a successful
response; but a language-model call that RAISES propagates out of _answer
(becoming an error response in the handler). -/
theorem empty_answer_sentinel (resp : LMResponse) (qr : String) (tkRaw : Option Int)
    (docs : List String) (metas : List (Option ChunkMeta)) (dists : List Int) (e : String) :
    ((∀ ot, resp.output_text = some ot → pyStripStr ot = "") →
      pyStripStr (collect_output resp.output) = "" →
      answer_model (Except.ok resp) = Except.ok "No answer returned.") ∧
    answer_model (Except.error e) = Except.error e ∧
    (pyStripStr qr ≠ "" →
      (∀ ot, resp.output_text = some ot → pyStripStr ot = "") →
      pyStripStr (collect_output resp.output) = "" →
      runbooks_ask (some qr) tkRaw docs metas dists (Except.ok resp) =
        ApiResult.ok (AskResponse.mk (pyStripStr qr) (effective_top_k tkRaw)
          (askSources (retrieveZip docs metas dists)) "No answer returned.")) := by
  have hext : (∀ ot, resp.output_text = some ot → pyStripStr ot = "") →
      pyStripStr (collect_output resp.output) = "" →
      extract_answer resp = "No answer returned." := by
    intro hot hcoll
    rw [extract_answer]
    match hcase : resp.output_text with
    | none => simp [hcoll]
    | some ot =>
      have := hot ot hcase
      simp [this, hcoll]
  refine ⟨?_, rfl, ?_⟩
  · intro hot hcoll
    rw [answer_model, hext hot hcoll]
  · intro hq hot hcoll
    rw [runbooks_ask]
    simp only [Option.getD_some]
    rw [if_neg hq]
    simp only [answer_model]
    rw [hext hot hcoll]

/-- A language-model response whose output_text is blank and whose message
content is empty, for the C4 witness. -/
def lmEmptyEx : LMResponse :=
  { output_text := some "  ",
    output := [{ itype := some "message", content := [{ ctype := "text", text := some "" }] }] }

/-- Witness for C4 amended: the blank response yields the sentinel and the
ask route still answers 200 with the retrieved source. -/
theorem empty_answer_sentinel_witness :
    answer_model (Except.ok lmEmptyEx) = Except.ok "No answer returned." ∧
    runbooks_ask (some "q") (some 5) ["doc"] [none] [0] (Except.ok lmEmptyEx) =
      ApiResult.ok (AskResponse.mk (pyStripStr "q") (effective_top_k (some 5))
        (askSources (retrieveZip ["doc"] [none] [0])) "No answer returned.") :=
  ⟨(empty_answer_sentinel lmEmptyEx "q" (some 5) ["doc"] [none] [0] "e").1
      (by intro ot hot; cases hot; decide) (by decide),
   (empty_answer_sentinel lmEmptyEx "q" (some 5) ["doc"] [none] [0] "e").2.2
      (by decide) (by intro ot hot; cases hot; decide) (by decide)⟩

/-- _safe_name from lambda/app.py: strip the name, then return "" when it is
empty or contains a forward slash, a backslash, or the substring "..";
otherwise return the stripped name. -/
def safe_name (name : List Char) : List Char :=
  let n := pyStrip name
  if n = [] ∨ '/' ∈ n ∨ '\\' ∈ n ∨ ['.', '.'] <:+: n then [] else n

/-- The outcome of the GET /doc route of lambda_handler in lambda/app.py:
a presigned URL for some S3 key, a 404, or the 400 "Provide ?name= or
?key=" response. -/
inductive DocResult where
  | presigned (key : List Char)
  | notFound
  | badRequest
deriving DecidableEq

/-- The GET /doc branch of lambda_handler in lambda/app.py: a non-empty
(stripped) ?key= is presigned directly; otherwise a non-empty sanitized
?name= is looked up among the bucket keys by suffix match and presigned;
otherwise the 400 error response is returned. -/
def doc_route (qsKey qsName : List Char) (objKeys : List (List Char)) : DocResult :=
  let key := pyStrip qsKey
  let name := safe_name qsName
  if key ≠ [] then DocResult.presigned key
  else if name ≠ [] then
    match objKeys.find? (fun k => decide (('/' :: name) <:+ k ∨ name <:+ k)) with
    | some k => DocResult.presigned k
    | none => DocResult.notFound
  else DocResult.badRequest

theorem mem_dropWhile_of_not (p : Char → Bool) (c : Char) (l : List Char)
    (hc : c ∈ l) (hp : p c = false) : c ∈ l.dropWhile p := by
  induction l with
  | nil => cases hc
  | cons a l ih =>
    by_cases hpa : p a
    · rw [List.dropWhile_cons_of_pos hpa]
      rcases List.mem_cons.mp hc with rfl | hmem
      · rw [hpa] at hp; cases hp
      · exact ih hmem
    · rw [List.dropWhile_cons_of_neg hpa]
      exact hc

theorem mem_pyStrip (c : Char) (l : List Char) (hc : c ∈ l)
    (hw : c.isWhitespace = false) : c ∈ pyStrip l := by
  rw [pyStrip]
  rw [List.mem_reverse]
  apply mem_dropWhile_of_not _ _ _ _ hw
  rw [List.mem_reverse]
  exact mem_dropWhile_of_not _ _ _ hc hw

theorem infix_dropWhile (p : Char → Bool) (m : List Char) (c : Char) (cs : List Char)
    (hm : m = c :: cs) (hc : p c = false) :
    ∀ (pre suf : List Char), m <:+: (pre ++ m ++ suf).dropWhile p := by
  intro pre
  induction pre with
  | nil =>
    intro suf
    subst hm
    simp only [List.nil_append, List.cons_append]
    rw [List.dropWhile_cons_of_neg (by rw [hc]; exact Bool.false_ne_true)]
    exact ⟨[], suf, rfl⟩
  | cons a pre ih =>
    intro suf
    by_cases hpa : p a
    · simp only [List.cons_append]
      rw [List.dropWhile_cons_of_pos hpa]
      exact ih suf
    · simp only [List.cons_append]
      rw [List.dropWhile_cons_of_neg hpa]
      exact ⟨a :: pre, suf, rfl⟩

theorem infix_pyStrip_dots (l : List Char) (h : ['.', '.'] <:+: l) :
    ['.', '.'] <:+: pyStrip l := by
  obtain ⟨pre, suf, rfl⟩ := h
  rw [pyStrip]
  have hdot : ('.' : Char).isWhitespace = false := by decide
  have h1 : ['.', '.'] <:+: (pre ++ ['.', '.'] ++ suf).dropWhile Char.isWhitespace :=
    infix_dropWhile Char.isWhitespace _ '.' ['.'] rfl hdot pre suf
  obtain ⟨pre2, suf2, heq⟩ := h1
  rw [← heq]
  have h2 : ['.', '.'] <:+: (suf2.reverse ++ ['.', '.'] ++ pre2.reverse).dropWhile
      Char.isWhitespace :=
    infix_dropWhile Char.isWhitespace _ '.' ['.'] rfl hdot suf2.reverse pre2.reverse
  have hrev : (pre2 ++ ['.', '.'] ++ suf2).reverse = suf2.reverse ++ ['.', '.'] ++ pre2.reverse := by
    simp [List.reverse_append, List.append_assoc]
  rw [hrev]
  obtain ⟨pre3, suf3, heq3⟩ := h2
  rw [← heq3]
  refine ⟨suf3.reverse, pre3.reverse, ?_⟩
  simp [List.reverse_append, List.append_assoc]

/-- C10: every ?name= value that is empty or contains a slash, a backslash,
or "..", is sanitized to the empty string by _safe_name, and in the absence
of a ?key= value the /doc route then answers the 400 error response — no
presigned URL is issued for a traversal-style name. -/
theorem traversal_name_rejected (name : List Char) (objKeys : List (List Char))
    (h : name = [] ∨ '/' ∈ name ∨ '\\' ∈ name ∨ ['.', '.'] <:+: name) :
    safe_name name = [] ∧ doc_route [] name objKeys = DocResult.badRequest := by
  have hsafe : safe_name name = [] := by
    rw [safe_name]
    rcases h with rfl | h | h | h
    · simp [pyStrip]
    · have : '/' ∈ pyStrip name := mem_pyStrip '/' name h (by decide)
      simp [this]
    · have : '\\' ∈ pyStrip name := mem_pyStrip '\\' name h (by decide)
      simp [this]
    · have : ['.', '.'] <:+: pyStrip name := infix_pyStrip_dots name h
      simp [this]
  refine ⟨hsafe, ?_⟩
  rw [doc_route]
  have hkey : pyStrip ([] : List Char) = [] := rfl
  simp [hkey, hsafe]

/-- Witness for C10 at the concrete traversal name "../../etc/creds.pdf". -/
theorem traversal_name_rejected_witness :
    safe_name ("../../etc/creds.pdf".toList) = [] ∧
    doc_route [] ("../../etc/creds.pdf".toList) ["knowledge/runbooks/a.pdf".toList] =
      DocResult.badRequest :=
  traversal_name_rejected ("../../etc/creds.pdf".toList) ["knowledge/runbooks/a.pdf".toList]
    (Or.inr (Or.inl (by decide)))

end LlmSre
